import Mathlib

/-!
Verification of the piece-movement core of `pieces.py`.

The file shallowly embeds the six piece classes' `get_reachable_cells`
methods, the shared `Piece.get_valid_cells` legality filter, and
`Piece.evaluate`.  Board collaborators (`cell_is_valid_and_empty`,
`piece_can_enter_cell`, `piece_can_hit_on_cell`, `get_cell`, `set_cell`,
`is_king_check_cached`) are abstract parameters; the board occupancy that
`set_cell`/`get_cell` manipulate is modelled as a total function from
cells to optional occupants.  Python exceptions are modelled with
`Except`.  Numeric scores use exact rationals in place of Python floats,
keeping the formula structure of the source.
-/

namespace Pieces

/-- A board coordinate `(row, column)`.  Python integers are unbounded,
and the generators form out-of-bounds coordinates freely (validity is the
board collaborator's concern), so coordinates are `Int`. -/
abbrev Cell : Type := Int × Int

/-- Componentwise translation of a cell, `(r + dr, c + dc)` as in the
source's ray walks and offset jumps. -/
def cadd (a b : Cell) : Cell := (a.1 + b.1, a.2 + b.2)

/-- Scales a direction by `i` steps: used only in specification statements to
name the `i`-th cell of a ray. -/
def cmul (i : Nat) (d : Cell) : Cell := ((i : Int) * d.1, (i : Int) * d.2)

/-- Errors a method can raise.  `typeError` stands for the `TypeError`
Python raises at `r, c = self.cell` when `cell` is `None`;
`unplacedPiece` stands for an explicit "unplaced piece" error (no source
method constructs it); `boardFailure` stands for a failure raised by a
board collaborator predicate. -/
inductive PyError
  | typeError
  | unplacedPiece
  | boardFailure
deriving DecidableEq, Repr

/-- The six piece kinds (the Python subclasses of `Piece`). -/
inductive Kind
  | Pawn
  | Knight
  | Bishop
  | Rook
  | Queen
  | King
deriving DecidableEq, Repr

/-! ## Movement generators

Each `get_reachable_cells` method reads `self.cell` (here an
`Option Cell`), and queries the board through
`self.board.cell_is_valid_and_empty` (`ve`), `self.can_enter_cell`
(`ce`) and `self.can_hit_on_cell` (`ch`); the latter two are already
specialised to the piece, so they are plain `Cell → Bool` parameters. -/

/-- One ray of the sliding `while True` loop shared by
`Rook.get_reachable_cells`, `Bishop.get_reachable_cells` and
`Queen.get_reachable_cells`: from the current cell, append while
valid-and-empty, append-and-stop on a hittable cell, stop otherwise.
The Python loop has no bound of its own (the board predicates bound it);
`fuel` makes the recursion structural and is taken large enough in every
statement. -/
def rayWalk (ve ch : Cell → Bool) (d : Cell) : Nat → Cell → List Cell
  | 0, _ => []
  | fuel + 1, pos =>
    if ve pos then pos :: rayWalk ve ch d fuel (cadd pos d)
    else if ch pos then [pos]
    else []

/-- The four axis-aligned directions of `Rook.get_reachable_cells`. -/
def rookDirections : List Cell := [(-1, 0), (1, 0), (0, -1), (0, 1)]

/-- The four diagonal directions of `Bishop.get_reachable_cells`. -/
def bishopDirections : List Cell := [(-1, -1), (-1, 1), (1, -1), (1, 1)]

/-- The eight directions of `Queen.get_reachable_cells`, in source
order. -/
def queenDirections : List Cell :=
  [(-1, 0), (1, 0), (0, -1), (0, 1), (-1, -1), (-1, 1), (1, -1), (1, 1)]

/-- Embeds `Rook.get_reachable_cells`: unpack `self.cell` (raising on `None`),
then walk each of the four axis directions from the neighbouring cell
outward. -/
def rookGetReachableCells (ve ch : Cell → Bool) (fuel : Nat) :
    Option Cell → Except PyError (List Cell)
  | none => .error .typeError
  | some rc =>
    .ok (rookDirections.flatMap fun d => rayWalk ve ch d fuel (cadd rc d))

/-- Embeds `Bishop.get_reachable_cells`: same loop over the diagonal
directions. -/
def bishopGetReachableCells (ve ch : Cell → Bool) (fuel : Nat) :
    Option Cell → Except PyError (List Cell)
  | none => .error .typeError
  | some rc =>
    .ok (bishopDirections.flatMap fun d => rayWalk ve ch d fuel (cadd rc d))

/-- Embeds `Queen.get_reachable_cells`: same loop over all eight directions. -/
def queenGetReachableCells (ve ch : Cell → Bool) (fuel : Nat) :
    Option Cell → Except PyError (List Cell)
  | none => .error .typeError
  | some rc =>
    .ok (queenDirections.flatMap fun d => rayWalk ve ch d fuel (cadd rc d))

/-- The eight jump offsets of `Knight.get_reachable_cells`, in source
order. -/
def knightJumps : List Cell :=
  [(2, 1), (2, -1), (-2, 1), (-2, -1), (1, 2), (1, -2), (-1, 2), (-1, -2)]

/-- Embeds `Knight.get_reachable_cells`: each offset target is kept when
enterable or hittable. -/
def knightGetReachableCells (ce ch : Cell → Bool) :
    Option Cell → Except PyError (List Cell)
  | none => .error .typeError
  | some rc =>
    .ok ((knightJumps.map (cadd rc)).filter fun cell => ce cell || ch cell)

/-- The eight unit offsets of `King.get_reachable_cells`, in the order
the two nested `for dr/dc` loops produce them (skipping `(0, 0)`). -/
def kingOffsets : List Cell :=
  [(-1, -1), (-1, 0), (-1, 1), (0, -1), (0, 1), (1, -1), (1, 0), (1, 1)]

/-- Embeds `King.get_reachable_cells`: one step in each direction, kept when
enterable or hittable. -/
def kingGetReachableCells (ce ch : Cell → Bool) :
    Option Cell → Except PyError (List Cell)
  | none => .error .typeError
  | some rc =>
    .ok ((kingOffsets.map (cadd rc)).filter fun cell => ce cell || ch cell)

/-- Embeds `Pawn.get_reachable_cells`: single step onto a valid-and-empty cell;
double step additionally requires the colour's start row and a
valid-and-empty destination (the check is nested under the single-step
emptiness test, as in the source); the two diagonals are appended when
hittable. -/
def pawnGetReachableCells (ve ch : Cell → Bool) (white : Bool) :
    Option Cell → Except PyError (List Cell)
  | none => .error .typeError
  | some rc =>
    let r := rc.1
    let c := rc.2
    let direction : Int := if white then 1 else -1
    let startRow : Int := if white then 1 else 6
    let oneStep : Cell := (r + direction, c)
    let forward : List Cell :=
      if ve oneStep then
        let twoStep : Cell := (r + 2 * direction, c)
        if r = startRow && ve twoStep then [oneStep, twoStep] else [oneStep]
      else []
    let diagLeft : Cell := (r + direction, c - 1)
    let diagRight : Cell := (r + direction, c + 1)
    .ok (forward
      ++ (if ch diagLeft then [diagLeft] else [])
      ++ (if ch diagRight then [diagRight] else []))

/-! ## Legality filter (`Piece.get_valid_cells`)

The filter mutates the board through `board.set_cell`, whose
implementation is not part of `pieces.py`.  `PieceState` carries the two
pieces of mutable state the filter can observe: the board occupancy and
the mover's `cell` attribute.  `setCell` below models the
board-occupancy effect of `set_cell`, on which the board-restoration and
membership results depend; the spec additionally describes `set_cell` as
the relocation primitive that reassigns the placed occupant's `cell`
attribute, and that aspect is modelled separately by `setCellRel`
further down.  The board's check predicate `is_king_check_cached(color)`
is an abstract, possibly failing function of the colour and the current
occupancy. -/

/-- The mutable state `Piece.get_valid_cells` can observe: the board's
cell contents (occupant or `None`) and the piece's own `cell`
attribute.  `P` is the type of occupant references. -/
structure PieceState (P : Type) where
  cells : Cell → Option P
  pieceCell : Cell

/-- Reads `board.get_cell(cell)`. -/
def getCell {P : Type} (s : PieceState P) (cell : Cell) : Option P :=
  s.cells cell

/-- Models the board-occupancy effect of
`board.set_cell(cell, occupant_or_none)`: that board cell is updated.
(The spec's relocation of the occupant's own `cell` attribute is
modelled by `setCellRel`.) -/
def setCell {P : Type} (s : PieceState P) (cell : Cell) (occ : Option P) :
    PieceState P :=
  { s with cells := fun c => if c = cell then occ else s.cells c }

/-- The body of the `for target in reachable` loop of
`Piece.get_valid_cells`, threading the accumulated `valid` list and the
state; a failing `is_king_check_cached` propagates, leaving the state as
it was at the raise. -/
def getValidCellsAux {P : Type} (self : P)
    (isCheck : Bool → (Cell → Option P) → Except PyError Bool)
    (white : Bool) (oldCell : Cell) :
    List Cell → List Cell → PieceState P →
      Except PyError (List Cell) × PieceState P
  | [], valid, s => (.ok valid, s)
  | target :: rest, valid, s =>
    let captured := getCell s target
    let s1 := setCell s target (some self)
    match isCheck white s1.cells with
    | .error e => (.error e, s1)
    | .ok inCheck =>
      let s2 := setCell s1 oldCell (some self)
      let s3 := setCell s2 target captured
      getValidCellsAux self isCheck white oldCell rest
        (if inCheck then valid else valid ++ [target]) s3

/-- Embeds `Piece.get_valid_cells`, with the list returned by
`self.get_reachable_cells()` passed in as `reachable`: records
`old_cell = self.cell`, then simulates, queries and restores each
candidate in turn, keeping those for which the check query returned
false. -/
def getValidCells {P : Type} (self : P)
    (isCheck : Bool → (Cell → Option P) → Except PyError Bool)
    (white : Bool) (reachable : List Cell) (s : PieceState P) :
    Except PyError (List Cell) × PieceState P :=
  getValidCellsAux self isCheck white s.pieceCell reachable [] s

/-! ## Evaluator (`Piece.evaluate`) -/

/-- The `base_values` table of `Piece.evaluate` (`3.2` is `16/5`). -/
def baseValue : Kind → ℚ
  | .Pawn => 1
  | .Knight => 3
  | .Bishop => 16 / 5
  | .Rook => 5
  | .Queen => 9
  | .King => 200

/-- The pressure-counting loop of `Piece.evaluate`: count the reachable
cells on which `self.can_hit_on_cell` answers true, propagating the
first failure. -/
def countHits (canHit : Cell → Except PyError Bool) :
    List Cell → Except PyError Nat
  | [] => .ok 0
  | cell :: rest => do
    let b ← canHit cell
    let n ← countHits canHit rest
    pure (if b then n + 1 else n)

/-- Embeds `Piece.evaluate`.  `getReachable` is the outcome of
`self.get_reachable_cells()`, `canHit` that of the per-cell
`self.can_hit_on_cell` queries.  If `getReachable` raises, the first
handler sets `mobility = 0.0`; the pressure loop then reads the unbound
local `reachable`, raising `UnboundLocalError`, which the second handler
catches, leaving `pressure = 0.0`.  If only `canHit` raises, the second
handler leaves `pressure` at its initial `0.0`. -/
def evaluate (kind : Kind) (getReachable : Except PyError (List Cell))
    (canHit : Cell → Except PyError Bool) : ℚ :=
  let base := baseValue kind
  match getReachable with
  | .error _ => base + 0 + 0
  | .ok reachable =>
    let mobility : ℚ := (1 / 20 : ℚ) * reachable.length
    let pressure : ℚ :=
      match countHits canHit reachable with
      | .error _ => 0
      | .ok hitCount => (1 / 10 : ℚ) * hitCount
    base + mobility + pressure

/-! ## Lemmas about the legality filter -/

/-- Restoring after a simulation undoes it: placing the mover on the
target, then the mover back on its old cell, then the old occupant back
on the target, yields the original state, provided the mover really was
on its old cell. -/
lemma simulate_restore {P : Type} (self : P) (s : PieceState P)
    (target oldCell : Cell) (hcons : s.cells oldCell = some self) :
    setCell (setCell (setCell s target (some self)) oldCell (some self))
      target (getCell s target) = s := by
  cases s with
  | mk cells pieceCell =>
    simp only [setCell, getCell]
    congr 1
    funext c
    by_cases h1 : c = target
    · simp [h1]
    · by_cases h2 : c = oldCell
      · subst h2
        simp only at hcons
        simp [h1, hcons]
      · simp [h1, h2]

/-- Predicate recording that the post-restore inclusion test keeps a
candidate: the check query on the state with the mover placed on the
target answered `false`. -/
def keepsCandidate {P : Type} (self : P)
    (isCheck : Bool → (Cell → Option P) → Except PyError Bool)
    (white : Bool) (s : PieceState P) (target : Cell) : Bool :=
  match isCheck white ((setCell s target (some self)).cells) with
  | .ok inCheck => !inCheck
  | .error _ => false

/-- Main loop invariant of `Piece.get_valid_cells` on the success path:
when the mover sits on `oldCell` and every check query succeeds, the
loop returns the accumulated list extended by the candidates whose check
answered `false`, and the state it started from. -/
lemma getValidCellsAux_ok {P : Type} (self : P)
    (isCheck : Bool → (Cell → Option P) → Except PyError Bool)
    (white : Bool) (oldCell : Cell) (l acc : List Cell) (s : PieceState P)
    (hcons : s.cells oldCell = some self)
    (hck : ∀ t ∈ l, ∃ v,
      isCheck white ((setCell s t (some self)).cells) = .ok v) :
    getValidCellsAux self isCheck white oldCell l acc s =
      (.ok (acc ++ l.filter (keepsCandidate self isCheck white s)), s) := by
  induction l generalizing acc with
  | nil => simp [getValidCellsAux]
  | cons target rest ih =>
    obtain ⟨v, hv⟩ := hck target (List.mem_cons_self _ _)
    have hrest : ∀ t ∈ rest, ∃ v,
        isCheck white ((setCell s t (some self)).cells) = .ok v :=
      fun t ht => hck t (List.mem_cons_of_mem _ ht)
    have hres := simulate_restore self s target oldCell hcons
    have hkeep : keepsCandidate self isCheck white s target = !v := by
      simp [keepsCandidate, hv]
    simp only [getValidCellsAux, hv]
    rw [hres, ih _ hrest]
    cases v with
    | true => simp [List.filter_cons, hkeep]
    | false => simp [List.filter_cons, hkeep]

/-- C1 — the legality filter leaves the board (and the whole mutable
state) exactly as it found it when it runs to normal completion: with
the mover recorded on its own cell and a never-failing check predicate,
the state returned by `getValidCells` is the input state, for every
candidate list. -/
theorem legality_filter_preserves_board {P : Type} (self : P)
    (isCheck : Bool → (Cell → Option P) → Except PyError Bool)
    (white : Bool) (reachable : List Cell) (s : PieceState P)
    (hcons : s.cells s.pieceCell = some self)
    (hck : ∀ cs : Cell → Option P, ∃ v, isCheck white cs = .ok v) :
    (getValidCells self isCheck white reachable s).2 = s := by
  rw [getValidCells, getValidCellsAux_ok self isCheck white s.pieceCell
    reachable [] s hcons (fun t _ => hck _)]

/-- Closed instance of `legality_filter_preserves_board`: a one-piece
board with one candidate, a constant check predicate. -/
theorem legality_filter_preserves_board_witness :
    ((⟨fun c => if c = ((0 : Int), (0 : Int)) then some () else none,
        ((0 : Int), (0 : Int))⟩ : PieceState Unit).cells
        (⟨fun c => if c = ((0 : Int), (0 : Int)) then some () else none,
          ((0 : Int), (0 : Int))⟩ : PieceState Unit).pieceCell = some ())
    ∧ (getValidCells () (fun _ _ => .ok false) true [((1 : Int), (0 : Int))]
        (⟨fun c => if c = ((0 : Int), (0 : Int)) then some () else none,
          ((0 : Int), (0 : Int))⟩ : PieceState Unit)).2 =
      (⟨fun c => if c = ((0 : Int), (0 : Int)) then some () else none,
        ((0 : Int), (0 : Int))⟩ : PieceState Unit) :=
  ⟨rfl, legality_filter_preserves_board () (fun _ _ => .ok false) true
    [((1 : Int), (0 : Int))] _ rfl (fun _ => ⟨false, rfl⟩)⟩

/-- C2 — a candidate is legal iff it is reachable and safe: under the
same normal-completion hypotheses, `getValidCells` returns a list, and a
cell belongs to it exactly when it belongs to the reachable list and the
check query — on the board with the mover placed on that cell — answered
`false`. -/
theorem legality_filter_membership {P : Type} (self : P)
    (isCheck : Bool → (Cell → Option P) → Except PyError Bool)
    (white : Bool) (reachable : List Cell) (s : PieceState P)
    (hcons : s.cells s.pieceCell = some self)
    (hck : ∀ cs : Cell → Option P, ∃ v, isCheck white cs = .ok v) :
    ∃ valid, (getValidCells self isCheck white reachable s).1 = .ok valid
      ∧ ∀ target, target ∈ valid ↔ target ∈ reachable
          ∧ isCheck white ((setCell s target (some self)).cells) =
              .ok false := by
  rw [getValidCells, getValidCellsAux_ok self isCheck white s.pieceCell
    reachable [] s hcons (fun t _ => hck _)]
  refine ⟨_, rfl, fun target => ?_⟩
  rw [List.nil_append, List.mem_filter]
  constructor
  · rintro ⟨hmem, hkeep⟩
    obtain ⟨v, hv⟩ := hck ((setCell s target (some self)).cells)
    refine ⟨hmem, ?_⟩
    rw [keepsCandidate, hv] at hkeep
    cases v with
    | true => simp at hkeep
    | false => exact hv
  · rintro ⟨hmem, hfalse⟩
    exact ⟨hmem, by simp [keepsCandidate, hfalse]⟩

/-- Closed instance of `legality_filter_membership`: one reachable cell,
no check, so the candidate is kept. -/
theorem legality_filter_membership_witness :
    ((⟨fun c => if c = ((0 : Int), (0 : Int)) then some 7 else none,
        ((0 : Int), (0 : Int))⟩ : PieceState Nat).cells
        ((0 : Int), (0 : Int)) = some 7)
    ∧ ∃ valid,
        (getValidCells 7 (fun _ _ => .ok false) true [((2 : Int), (0 : Int))]
          (⟨fun c => if c = ((0 : Int), (0 : Int)) then some 7 else none,
            ((0 : Int), (0 : Int))⟩ : PieceState Nat)).1 = .ok valid
        ∧ ∀ target, target ∈ valid ↔ target ∈ [((2 : Int), (0 : Int))]
            ∧ ((fun (_ : Bool) (_ : Cell → Option Nat) =>
                  (.ok false : Except PyError Bool)) true
                ((setCell
                  (⟨fun c => if c = ((0 : Int), (0 : Int)) then some 7 else none,
                    ((0 : Int), (0 : Int))⟩ : PieceState Nat)
                  target (some 7)).cells) = .ok false) :=
  ⟨rfl, legality_filter_membership 7 (fun _ _ => .ok false) true
    [((2 : Int), (0 : Int))] _ rfl (fun _ => ⟨false, rfl⟩)⟩

/-- C3, counterexample — when the check predicate fails, the board is
NOT restored: on a board whose only occupant is the mover at `(0, 0)`,
with one candidate `(1, 0)` and a check predicate that always raises,
`get_valid_cells` propagates the failure but leaves the mover written on
the target cell, which was empty before the call. -/
theorem legality_filter_error_not_restored :
    (getValidCells () (fun _ _ => .error .boardFailure) true
        [((1 : Int), (0 : Int))]
        (⟨fun c => if c = ((0 : Int), (0 : Int)) then some () else none,
          ((0 : Int), (0 : Int))⟩ : PieceState Unit)).1 =
      .error .boardFailure
    ∧ ((getValidCells () (fun _ _ => .error .boardFailure) true
        [((1 : Int), (0 : Int))]
        (⟨fun c => if c = ((0 : Int), (0 : Int)) then some () else none,
          ((0 : Int), (0 : Int))⟩ : PieceState Unit)).2).cells
        ((1 : Int), (0 : Int)) = some ()
    ∧ (⟨fun c => if c = ((0 : Int), (0 : Int)) then some () else none,
          ((0 : Int), (0 : Int))⟩ : PieceState Unit).cells
        ((1 : Int), (0 : Int)) = none :=
  ⟨rfl, rfl, rfl⟩

/-- Error-path invariant of the loop: after a successful prefix `done`,
a failing check query on candidate `target` makes the loop return that
error together with the state in which the mover has just been placed on
`target` (no restore runs). -/
lemma getValidCellsAux_error {P : Type} (self : P)
    (isCheck : Bool → (Cell → Option P) → Except PyError Bool)
    (white : Bool) (oldCell : Cell) (done rest : List Cell) (target : Cell)
    (e : PyError) (acc : List Cell) (s : PieceState P)
    (hcons : s.cells oldCell = some self)
    (hok : ∀ u ∈ done, ∃ v,
      isCheck white ((setCell s u (some self)).cells) = .ok v)
    (herr : isCheck white ((setCell s target (some self)).cells) =
      .error e) :
    getValidCellsAux self isCheck white oldCell (done ++ target :: rest)
        acc s = (.error e, setCell s target (some self)) := by
  induction done generalizing acc with
  | nil => simp [getValidCellsAux, getCell, herr]
  | cons u us ih =>
    obtain ⟨v, hv⟩ := hok u (List.mem_cons_self _ _)
    have hus : ∀ u2 ∈ us, ∃ v2,
        isCheck white ((setCell s u2 (some self)).cells) = .ok v2 :=
      fun u2 hu2 => hok u2 (List.mem_cons_of_mem _ hu2)
    have hres := simulate_restore self s u oldCell hcons
    simp only [List.cons_append, getValidCellsAux, hv]
    rw [hres]
    exact ih _ hus

/-- C3, amended — the failure propagates, and the residual state is the
simulated one: if the mover sits on its cell, the check queries for the
first `done` candidates succeed, and the query for the next candidate
`target` fails with `e`, then `get_valid_cells` returns that error and a
board equal to the pre-call board with the mover additionally written on
`target` (the earlier candidates having been fully restored). -/
theorem legality_filter_error_propagates {P : Type} (self : P)
    (isCheck : Bool → (Cell → Option P) → Except PyError Bool)
    (white : Bool) (done rest : List Cell) (target : Cell) (e : PyError)
    (s : PieceState P)
    (hcons : s.cells s.pieceCell = some self)
    (hok : ∀ u ∈ done, ∃ v,
      isCheck white ((setCell s u (some self)).cells) = .ok v)
    (herr : isCheck white ((setCell s target (some self)).cells) =
      .error e) :
    getValidCells self isCheck white (done ++ target :: rest) s =
      (.error e, setCell s target (some self)) :=
  getValidCellsAux_error self isCheck white s.pieceCell done rest target e
    [] s hcons hok herr

/-- Closed instance of `legality_filter_error_propagates`: empty prefix,
always-failing check predicate. -/
theorem legality_filter_error_propagates_witness :
    ((⟨fun c => if c = ((0 : Int), (0 : Int)) then some () else none,
        ((0 : Int), (0 : Int))⟩ : PieceState Unit).cells
        ((0 : Int), (0 : Int)) = some ())
    ∧ getValidCells () (fun _ _ => .error .boardFailure) true
        ([] ++ ((1 : Int), (0 : Int)) :: [])
        (⟨fun c => if c = ((0 : Int), (0 : Int)) then some () else none,
          ((0 : Int), (0 : Int))⟩ : PieceState Unit) =
      (.error .boardFailure,
        setCell
          (⟨fun c => if c = ((0 : Int), (0 : Int)) then some () else none,
            ((0 : Int), (0 : Int))⟩ : PieceState Unit)
          ((1 : Int), (0 : Int)) (some ())) :=
  ⟨rfl, legality_filter_error_propagates () (fun _ _ => .error .boardFailure)
    true [] [] ((1 : Int), (0 : Int)) .boardFailure _ rfl
    (fun u hu => absurd hu (List.not_mem_nil u)) rfl⟩

/-! ## Lemmas about the movement generators -/

/-- Zero steps go nowhere. -/
lemma cadd_cmul_zero (pos d : Cell) : cadd pos (cmul 0 d) = pos := by
  simp [cadd, cmul]

/-- Shifting the ray start by one direction step reindexes the ray
cells. -/
lemma cadd_cadd_cmul (pos d : Cell) (i : Nat) :
    cadd (cadd pos d) (cmul i d) = cadd pos (cmul (i + 1) d) := by
  simp only [cadd, cmul, Prod.mk.injEq]
  constructor <;> push_cast <;> ring

/-- Characterisation of one sliding ray: if the first `n` cells of the
ray are valid-and-empty and the `n`-th is not, the walk returns exactly
those `n` cells followed by the stop cell when it is hittable, and
nothing beyond. -/
lemma rayWalk_eq_of_firstStop (ve ch : Cell → Bool) (d : Cell) :
    ∀ (n fuel : Nat) (pos : Cell), n < fuel →
      (∀ i, i < n → ve (cadd pos (cmul i d)) = true) →
      ve (cadd pos (cmul n d)) = false →
      rayWalk ve ch d fuel pos =
        ((List.range n).map fun i => cadd pos (cmul i d))
          ++ (if ch (cadd pos (cmul n d)) then [cadd pos (cmul n d)]
              else []) := by
  intro n
  induction n with
  | zero =>
    intro fuel pos hn hempty hstop
    obtain ⟨fuel2, rfl⟩ := Nat.exists_eq_succ_of_ne_zero (Nat.pos_iff_ne_zero.mp hn)
    rw [cadd_cmul_zero] at hstop
    simp only [rayWalk, hstop, Bool.false_eq_true, if_false, List.range_zero,
      List.map_nil, List.nil_append, cadd_cmul_zero]
  | succ n ih =>
    intro fuel pos hn hempty hstop
    obtain ⟨fuel2, rfl⟩ := Nat.exists_eq_succ_of_ne_zero
      (Nat.pos_iff_ne_zero.mp (Nat.lt_of_le_of_lt (Nat.zero_le _) hn))
    have hpos : ve pos = true := by
      have := hempty 0 (Nat.succ_pos n)
      rwa [cadd_cmul_zero] at this
    have hempty2 : ∀ i, i < n → ve (cadd (cadd pos d) (cmul i d)) = true := by
      intro i hi
      rw [cadd_cadd_cmul]
      exact hempty (i + 1) (Nat.succ_lt_succ hi)
    have hstop2 : ve (cadd (cadd pos d) (cmul n d)) = false := by
      rw [cadd_cadd_cmul]
      exact hstop
    have hfuel : n < fuel2 := Nat.lt_of_succ_lt_succ hn
    simp only [rayWalk, hpos, if_true]
    rw [ih fuel2 (cadd pos d) hfuel hempty2 hstop2]
    rw [List.range_succ_eq_map]
    have hshift : ∀ i : Nat, cadd (cadd pos d) (cmul i d) =
        cadd pos (cmul (i + 1) d) := cadd_cadd_cmul pos d
    simp only [List.map_cons, List.map_map, cadd_cmul_zero, List.cons_append,
      Function.comp_def, Nat.succ_eq_add_one, hshift]

/-- C4 — sliding rays stop at the first non-empty cell: each of the
Rook/Bishop/Queen generators is the concatenation of its directions'
ray walks, and along a direction `d` whose first `n` cells (from the
cell adjacent to the piece) are valid-and-empty while the `n`-th is not,
the walk yields exactly those `n` empty cells, then the stop cell iff it
is hittable, and no cell beyond it. -/
theorem sliding_ray_first_blocker (ve ch : Cell → Bool) (fuel : Nat)
    (rc d : Cell) (n : Nat) (hn : n < fuel)
    (hempty : ∀ i, i < n → ve (cadd (cadd rc d) (cmul i d)) = true)
    (hstop : ve (cadd (cadd rc d) (cmul n d)) = false) :
    rookGetReachableCells ve ch fuel (some rc) =
        .ok (rookDirections.flatMap fun d2 =>
          rayWalk ve ch d2 fuel (cadd rc d2))
    ∧ bishopGetReachableCells ve ch fuel (some rc) =
        .ok (bishopDirections.flatMap fun d2 =>
          rayWalk ve ch d2 fuel (cadd rc d2))
    ∧ queenGetReachableCells ve ch fuel (some rc) =
        .ok (queenDirections.flatMap fun d2 =>
          rayWalk ve ch d2 fuel (cadd rc d2))
    ∧ rayWalk ve ch d fuel (cadd rc d) =
        ((List.range n).map fun i => cadd (cadd rc d) (cmul i d))
          ++ (if ch (cadd (cadd rc d) (cmul n d))
              then [cadd (cadd rc d) (cmul n d)] else []) :=
  ⟨rfl, rfl, rfl,
    rayWalk_eq_of_firstStop ve ch d n fuel (cadd rc d) hn hempty hstop⟩

/-- Closed instance of `sliding_ray_first_blocker`: from `(0, 0)` along
`(0, 1)`, cell `(0, 1)` is empty, cell `(0, 2)` holds a hittable enemy,
so the ray is `[(0, 1), (0, 2)]`. -/
theorem sliding_ray_first_blocker_witness :
    ((1 : Nat) < 8)
    ∧ (∀ i, i < 1 →
        (fun c => decide (c = ((0 : Int), (1 : Int))))
          (cadd (cadd ((0 : Int), (0 : Int)) ((0 : Int), (1 : Int)))
            (cmul i ((0 : Int), (1 : Int)))) = true)
    ∧ ((fun c => decide (c = ((0 : Int), (1 : Int))))
        (cadd (cadd ((0 : Int), (0 : Int)) ((0 : Int), (1 : Int)))
          (cmul 1 ((0 : Int), (1 : Int)))) = false)
    ∧ rayWalk (fun c => decide (c = ((0 : Int), (1 : Int))))
        (fun c => decide (c = ((0 : Int), (2 : Int))))
        ((0 : Int), (1 : Int)) 8
        (cadd ((0 : Int), (0 : Int)) ((0 : Int), (1 : Int))) =
      ((List.range 1).map fun i =>
          cadd (cadd ((0 : Int), (0 : Int)) ((0 : Int), (1 : Int)))
            (cmul i ((0 : Int), (1 : Int))))
        ++ (if (fun c => decide (c = ((0 : Int), (2 : Int))))
              (cadd (cadd ((0 : Int), (0 : Int)) ((0 : Int), (1 : Int)))
                (cmul 1 ((0 : Int), (1 : Int))))
            then [cadd (cadd ((0 : Int), (0 : Int)) ((0 : Int), (1 : Int)))
                (cmul 1 ((0 : Int), (1 : Int)))] else []) :=
  ⟨by decide, by decide, by decide,
    (sliding_ray_first_blocker (fun c => decide (c = ((0 : Int), (1 : Int))))
      (fun c => decide (c = ((0 : Int), (2 : Int)))) 8 ((0 : Int), (0 : Int))
      ((0 : Int), (1 : Int)) 1 (by decide) (by decide) (by decide)).2.2.2⟩

/-- Membership characterisation of the concrete list built by
`Pawn.get_reachable_cells`, for a generic nonzero direction `dir` and
start row `sr`. -/
lemma pawn_list_mem (ve ch : Cell → Bool) (r c dir sr : Int)
    (hdir : dir ≠ 0) :
    (((r + dir, c) : Cell) ∈
        ((if ve (r + dir, c) then
            (if decide (r = sr) && ve (r + 2 * dir, c) then
              [((r + dir, c) : Cell), (r + 2 * dir, c)]
            else [((r + dir, c) : Cell)])
          else [])
          ++ (if ch (r + dir, c - 1) then [((r + dir, c - 1) : Cell)] else [])
          ++ (if ch (r + dir, c + 1) then [((r + dir, c + 1) : Cell)] else []))
      ↔ ve (r + dir, c) = true)
    ∧ (((r + 2 * dir, c) : Cell) ∈
        ((if ve (r + dir, c) then
            (if decide (r = sr) && ve (r + 2 * dir, c) then
              [((r + dir, c) : Cell), (r + 2 * dir, c)]
            else [((r + dir, c) : Cell)])
          else [])
          ++ (if ch (r + dir, c - 1) then [((r + dir, c - 1) : Cell)] else [])
          ++ (if ch (r + dir, c + 1) then [((r + dir, c + 1) : Cell)] else []))
      ↔ r = sr ∧ ve (r + dir, c) = true ∧ ve (r + 2 * dir, c) = true)
    ∧ (((r + dir, c - 1) : Cell) ∈
        ((if ve (r + dir, c) then
            (if decide (r = sr) && ve (r + 2 * dir, c) then
              [((r + dir, c) : Cell), (r + 2 * dir, c)]
            else [((r + dir, c) : Cell)])
          else [])
          ++ (if ch (r + dir, c - 1) then [((r + dir, c - 1) : Cell)] else [])
          ++ (if ch (r + dir, c + 1) then [((r + dir, c + 1) : Cell)] else []))
      ↔ ch (r + dir, c - 1) = true)
    ∧ (((r + dir, c + 1) : Cell) ∈
        ((if ve (r + dir, c) then
            (if decide (r = sr) && ve (r + 2 * dir, c) then
              [((r + dir, c) : Cell), (r + 2 * dir, c)]
            else [((r + dir, c) : Cell)])
          else [])
          ++ (if ch (r + dir, c - 1) then [((r + dir, c - 1) : Cell)] else [])
          ++ (if ch (r + dir, c + 1) then [((r + dir, c + 1) : Cell)] else []))
      ↔ ch (r + dir, c + 1) = true) := by
  have h12 : ((r + dir, c) : Cell) ≠ (r + 2 * dir, c) := by
    intro h
    have h2 := congrArg Prod.fst h
    simp only at h2
    omega
  have h1l : ((r + dir, c) : Cell) ≠ (r + dir, c - 1) := by
    intro h
    have h2 := congrArg Prod.snd h
    simp only at h2
    omega
  have h1r : ((r + dir, c) : Cell) ≠ (r + dir, c + 1) := by
    intro h
    have h2 := congrArg Prod.snd h
    simp only at h2
    omega
  have h2l : ((r + 2 * dir, c) : Cell) ≠ (r + dir, c - 1) := by
    intro h
    have h2 := congrArg Prod.snd h
    simp only at h2
    omega
  have h2r : ((r + 2 * dir, c) : Cell) ≠ (r + dir, c + 1) := by
    intro h
    have h2 := congrArg Prod.snd h
    simp only at h2
    omega
  have hlr : ((r + dir, c - 1) : Cell) ≠ (r + dir, c + 1) := by
    intro h
    have h2 := congrArg Prod.snd h
    simp only at h2
    omega
  have f1 : ¬(r + dir = r + 2 * dir) := by omega
  have f2 : ¬(r + 2 * dir = r + dir) := by omega
  have f3 : ¬(c = c - 1) := by omega
  have f4 : ¬(c - 1 = c) := by omega
  have f5 : ¬(c = c + 1) := by omega
  have f6 : ¬(c + 1 = c) := by omega
  have f7 : ¬(c - 1 = c + 1) := by omega
  have f8 : ¬(c + 1 = c - 1) := by omega
  by_cases hsr : r = sr
  · subst hsr
    have hq : decide (r = r) = true := by simp
    by_cases hv1 : ve (r + dir, c) = true <;>
      by_cases hv2 : ve (r + 2 * dir, c) = true <;>
      by_cases hdl : ch (r + dir, c - 1) = true <;>
      by_cases hdr2 : ch (r + dir, c + 1) = true <;>
      simp [hq, hv1, hv2, hdl, hdr2, f1, f2, f3, f4, f5, f6, f7, f8,
        Bool.not_eq_true]
  · have hq : decide (r = sr) = false := decide_eq_false hsr
    by_cases hv1 : ve (r + dir, c) = true <;>
      by_cases hv2 : ve (r + 2 * dir, c) = true <;>
      by_cases hdl : ch (r + dir, c - 1) = true <;>
      by_cases hdr2 : ch (r + dir, c + 1) = true <;>
      simp [hq, hsr, hv1, hv2, hdl, hdr2, f1, f2, f3, f4, f5, f6, f7, f8,
        Bool.not_eq_true]

/-- C5 — pawn moves: writing `dir` for the colour's direction and `sr`
for its start row, `Pawn.get_reachable_cells` returns a list in which
the single step is present iff its destination is valid-and-empty, the
double step is present iff the pawn stands on `sr` and both forward
cells are valid-and-empty, and each forward diagonal is present iff it
is hittable. -/
theorem pawn_reachable_characterization (ve ch : Cell → Bool)
    (white : Bool) (r c : Int) :
    ∃ L, pawnGetReachableCells ve ch white (some (r, c)) = .ok L
      ∧ (((r + (if white then (1 : Int) else -1), c) : Cell) ∈ L ↔
          ve (r + (if white then (1 : Int) else -1), c) = true)
      ∧ (((r + 2 * (if white then (1 : Int) else -1), c) : Cell) ∈ L ↔
          r = (if white then (1 : Int) else 6)
          ∧ ve (r + (if white then (1 : Int) else -1), c) = true
          ∧ ve (r + 2 * (if white then (1 : Int) else -1), c) = true)
      ∧ (((r + (if white then (1 : Int) else -1), c - 1) : Cell) ∈ L ↔
          ch (r + (if white then (1 : Int) else -1), c - 1) = true)
      ∧ (((r + (if white then (1 : Int) else -1), c + 1) : Cell) ∈ L ↔
          ch (r + (if white then (1 : Int) else -1), c + 1) = true) := by
  cases white with
  | false => exact ⟨_, rfl, pawn_list_mem ve ch r c (-1) 6 (by norm_num)⟩
  | true => exact ⟨_, rfl, pawn_list_mem ve ch r c 1 1 (by norm_num)⟩

/-! ## Lemmas about the evaluator -/

/-- When every capture query answers, the pressure loop counts the
cells whose query answered `true`. -/
lemma countHits_ok (canHit : Cell → Except PyError Bool) :
    ∀ l : List Cell, (∀ cell ∈ l, ∃ b, canHit cell = .ok b) →
      countHits canHit l =
        .ok (l.countP fun cell =>
          match canHit cell with
          | .ok b => b
          | .error _ => false) := by
  intro l
  induction l with
  | nil => intro hq; rfl
  | cons cell rest ih =>
    intro hq
    obtain ⟨b, hb⟩ := hq cell (List.mem_cons_self _ _)
    have hrest := ih fun cell2 h2 => hq cell2 (List.mem_cons_of_mem _ h2)
    simp only [countHits, hb, hrest, List.countP_cons]
    cases b <;> simp [bind, Except.bind, pure, Except.pure, hb]

/-- C6 — the evaluation formula: when the capture queries all succeed,
`evaluate` on a successfully computed reachable list returns the base
material value plus `1/20` per reachable cell plus `1/10` per reachable
cell whose capture query answered `true` (both counts over the
unfiltered reachable list), and the base table is Pawn 1, Knight 3,
Bishop 3.2, Rook 5, Queen 9, King 200. -/
theorem evaluate_formula (kind : Kind) (reachable : List Cell)
    (canHit : Cell → Except PyError Bool)
    (hq : ∀ cell ∈ reachable, ∃ b, canHit cell = .ok b) :
    evaluate kind (.ok reachable) canHit =
      baseValue kind + (1 / 20 : ℚ) * reachable.length
        + (1 / 10 : ℚ) * (reachable.countP fun cell =>
            match canHit cell with
            | .ok b => b
            | .error _ => false)
    ∧ baseValue .Pawn = 1 ∧ baseValue .Knight = 3
    ∧ baseValue .Bishop = 16 / 5 ∧ baseValue .Rook = 5
    ∧ baseValue .Queen = 9 ∧ baseValue .King = 200 := by
  refine ⟨?_, rfl, rfl, rfl, rfl, rfl, rfl⟩
  simp only [evaluate, countHits_ok canHit reachable hq]

/-- Closed instance of `evaluate_formula`: a Rook seeing two cells, one
of them an enemy. -/
theorem evaluate_formula_witness :
    (∀ cell ∈ [((0 : Int), (1 : Int)), ((0 : Int), (2 : Int))], ∃ b,
        (fun cell2 => (.ok (decide (cell2 = ((0 : Int), (2 : Int)))) :
          Except PyError Bool)) cell = .ok b)
    ∧ evaluate .Rook (.ok [((0 : Int), (1 : Int)), ((0 : Int), (2 : Int))])
        (fun cell2 => .ok (decide (cell2 = ((0 : Int), (2 : Int))))) =
      baseValue .Rook
        + (1 / 20 : ℚ) *
          ([((0 : Int), (1 : Int)), ((0 : Int), (2 : Int))] : List Cell).length
        + (1 / 10 : ℚ) *
          (([((0 : Int), (1 : Int)), ((0 : Int), (2 : Int))] : List Cell).countP
            fun cell =>
              match (.ok (decide (cell = ((0 : Int), (2 : Int)))) :
                  Except PyError Bool) with
              | .ok b => b
              | .error _ => false) :=
  ⟨fun _ _ => ⟨_, rfl⟩,
    (evaluate_formula .Rook [((0 : Int), (1 : Int)), ((0 : Int), (2 : Int))]
      (fun cell2 => .ok (decide (cell2 = ((0 : Int), (2 : Int)))))
      (fun _ _ => ⟨_, rfl⟩)).1⟩

/-- C7 — the evaluator never propagates a failure: when the
reachable-cell computation raises, both mobility and pressure default to
zero and the score is the bare base value; when only the capture
queries raise, the pressure term alone defaults to zero.  `evaluate`
returns a number (it is a total function) in both cases. -/
theorem evaluate_never_fails :
    (∀ (kind : Kind) (canHit : Cell → Except PyError Bool) (e : PyError),
        evaluate kind (.error e) canHit = baseValue kind + 0 + 0)
    ∧ ∀ (kind : Kind) (reachable : List Cell)
        (canHit : Cell → Except PyError Bool) (e : PyError),
        countHits canHit reachable = .error e →
        evaluate kind (.ok reachable) canHit =
          baseValue kind + (1 / 20 : ℚ) * reachable.length + 0 := by
  refine ⟨fun kind canHit e => rfl, fun kind reachable canHit e herr => ?_⟩
  simp only [evaluate, herr]

/-- Closed instance of `evaluate_never_fails`: a Queen whose single
capture query raises. -/
theorem evaluate_never_fails_witness :
    countHits (fun _ => .error .boardFailure) [((0 : Int), (0 : Int))] =
        .error .boardFailure
    ∧ evaluate .Queen (.ok [((0 : Int), (0 : Int))])
        (fun _ => .error .boardFailure) =
      baseValue .Queen
        + (1 / 20 : ℚ) * ([((0 : Int), (0 : Int))] : List Cell).length + 0 :=
  ⟨rfl, evaluate_never_fails.2 .Queen [((0 : Int), (0 : Int))]
    (fun _ => .error .boardFailure) .boardFailure rfl⟩

/-! ## Queen = Rook ++ Bishop, and the unplaced-piece error -/

/-- C9 — the Queen's reachable list is the Rook's followed by the
Bishop's: for every board view, fuel and cell, the three generators
succeed and the Queen's list is the concatenation, because
`queenDirections` is `rookDirections ++ bishopDirections` walked by the
same ray rule. -/
theorem queen_reachable_eq_rook_append_bishop (ve ch : Cell → Bool)
    (fuel : Nat) (rc : Cell) :
    ∃ lr lb, rookGetReachableCells ve ch fuel (some rc) = .ok lr
      ∧ bishopGetReachableCells ve ch fuel (some rc) = .ok lb
      ∧ queenGetReachableCells ve ch fuel (some rc) = .ok (lr ++ lb) := by
  refine ⟨_, _, rfl, rfl, ?_⟩
  simp only [queenGetReachableCells, rookGetReachableCells,
    bishopGetReachableCells, queenDirections, rookDirections,
    bishopDirections, List.flatMap_cons, List.flatMap_nil,
    List.append_nil, List.append_assoc]

/-- C8, counterexample — an unplaced Pawn's generation fails with the
`TypeError` of unpacking `None`, which is not an explicit
"unplaced piece" error. -/
theorem unplaced_piece_error_is_type_error :
    pawnGetReachableCells (fun _ => false) (fun _ => false) true none =
        .error .typeError
    ∧ PyError.typeError ≠ PyError.unplacedPiece :=
  ⟨rfl, by decide⟩

/-- C8, amended — generation on an unplaced piece does fail (it neither
proceeds with undefined coordinates nor returns an empty list), for all
six kinds, but with the generic unpacking `TypeError` rather than an
explicit "unplaced piece" error. -/
theorem unplaced_piece_generation_fails :
    ∀ (ve ce ch : Cell → Bool) (white : Bool) (fuel : Nat),
      pawnGetReachableCells ve ch white none = .error .typeError
      ∧ rookGetReachableCells ve ch fuel none = .error .typeError
      ∧ knightGetReachableCells ce ch none = .error .typeError
      ∧ bishopGetReachableCells ve ch fuel none = .error .typeError
      ∧ queenGetReachableCells ve ch fuel none = .error .typeError
      ∧ kingGetReachableCells ce ch none = .error .typeError :=
  fun _ _ _ _ _ => ⟨rfl, rfl, rfl, rfl, rfl, rfl⟩

/-! ## Spec-modelled relocation primitive and the piece's cell attribute

The implementation of `board.set_cell` is not under `src/`; the spec
describes it as the relocation/cell-assignment primitive (§6
"relocation/restoration primitive", §4.2 "relocate the mover to the
target cell (board's cell-assignment operation)") and states that piece
instances are "mutated only by relocation (cell reassignment) during
real moves or during the legality filter's temporary simulate/restore
cycle" (§3).  The definitions below model that reading and rerun the
`get_valid_cells` loop over it, to settle what happens to the mover's
`cell` attribute. -/

/-- Modelled from the spec: the missing `Board.set_cell` implementation,
read as the relocation/cell-assignment primitive — it updates the board
cell and reassigns the placed occupant's `cell` attribute to that cell.
The state tracks only the mover's attribute, so the reassignment is
recorded when the occupant being placed is the mover `self`. -/
def setCellRel {P : Type} [DecidableEq P] (self : P) (s : PieceState P)
    (cell : Cell) (occ : Option P) : PieceState P :=
  { cells := fun c => if c = cell then occ else s.cells c,
    pieceCell := if occ = some self then cell else s.pieceCell }

/-- The body of the `for target in reachable` loop of
`Piece.get_valid_cells`, exactly as in `getValidCellsAux` but with
`set_cell` modelled as the spec's relocation primitive. -/
def getValidCellsRelAux {P : Type} [DecidableEq P] (self : P)
    (isCheck : Bool → (Cell → Option P) → Except PyError Bool)
    (white : Bool) (oldCell : Cell) :
    List Cell → List Cell → PieceState P →
      Except PyError (List Cell) × PieceState P
  | [], valid, s => (.ok valid, s)
  | target :: rest, valid, s =>
    let captured := getCell s target
    let s1 := setCellRel self s target (some self)
    match isCheck white s1.cells with
    | .error e => (.error e, s1)
    | .ok inCheck =>
      let s2 := setCellRel self s1 oldCell (some self)
      let s3 := setCellRel self s2 target captured
      getValidCellsRelAux self isCheck white oldCell rest
        (if inCheck then valid else valid ++ [target]) s3

/-- Embeds `Piece.get_valid_cells` over the spec-modelled relocation
primitive: `old_cell = self.cell` is read once, before any mutation. -/
def getValidCellsRel {P : Type} [DecidableEq P] (self : P)
    (isCheck : Bool → (Cell → Option P) → Except PyError Bool)
    (white : Bool) (reachable : List Cell) (s : PieceState P) :
    Except PyError (List Cell) × PieceState P :=
  getValidCellsRelAux self isCheck white s.pieceCell reachable [] s

/-- Restoration under the relocation model: the restore step reassigns
the mover's attribute back to its old cell, and replacing the old
occupant on the target does not disturb it, provided the mover sits only
on its recorded cell. -/
lemma simulate_restore_rel {P : Type} [DecidableEq P] (self : P)
    (s : PieceState P) (target oldCell : Cell)
    (hold : s.pieceCell = oldCell)
    (hcons : s.cells oldCell = some self)
    (huniq : ∀ c, s.cells c = some self → c = oldCell) :
    setCellRel self
      (setCellRel self (setCellRel self s target (some self)) oldCell
        (some self))
      target (getCell s target) = s := by
  cases s with
  | mk cells pc =>
    simp only [setCellRel, getCell] at hold hcons huniq ⊢
    rw [PieceState.mk.injEq]
    constructor
    · funext c
      by_cases h1 : c = target
      · simp [h1]
      · by_cases h2 : c = oldCell
        · subst h2
          simp [h1, hcons]
        · simp [h1, h2]
    · by_cases hc : cells target = some self
      · have htgt := huniq target hc
        simp [hc, htgt, hold]
      · simp [hc, hold]

/-- Normal-completion invariant under the relocation model: when the
mover sits exactly on its recorded cell and every check query succeeds,
the loop hands back the state it started from, attribute included. -/
lemma getValidCellsRelAux_state {P : Type} [DecidableEq P] (self : P)
    (isCheck : Bool → (Cell → Option P) → Except PyError Bool)
    (white : Bool) (oldCell : Cell) (l acc : List Cell) (s : PieceState P)
    (hold : s.pieceCell = oldCell)
    (hcons : s.cells oldCell = some self)
    (huniq : ∀ c, s.cells c = some self → c = oldCell)
    (hck : ∀ t ∈ l, ∃ v,
      isCheck white ((setCellRel self s t (some self)).cells) = .ok v) :
    (getValidCellsRelAux self isCheck white oldCell l acc s).2 = s := by
  induction l generalizing acc with
  | nil => rfl
  | cons target rest ih =>
    obtain ⟨v, hv⟩ := hck target (List.mem_cons_self _ _)
    have hrest : ∀ t ∈ rest, ∃ v2,
        isCheck white ((setCellRel self s t (some self)).cells) = .ok v2 :=
      fun t ht => hck t (List.mem_cons_of_mem _ ht)
    have hres := simulate_restore_rel self s target oldCell hold hcons huniq
    simp only [getValidCellsRelAux, hv]
    rw [hres]
    exact ih _ hrest

/-- Error-path invariant under the relocation model: after a successful
prefix, a failing check query leaves the mover — attribute included —
relocated onto the failing target. -/
lemma getValidCellsRelAux_error {P : Type} [DecidableEq P] (self : P)
    (isCheck : Bool → (Cell → Option P) → Except PyError Bool)
    (white : Bool) (oldCell : Cell) (done rest : List Cell) (target : Cell)
    (e : PyError) (acc : List Cell) (s : PieceState P)
    (hold : s.pieceCell = oldCell)
    (hcons : s.cells oldCell = some self)
    (huniq : ∀ c, s.cells c = some self → c = oldCell)
    (hok : ∀ u ∈ done, ∃ v,
      isCheck white ((setCellRel self s u (some self)).cells) = .ok v)
    (herr : isCheck white ((setCellRel self s target (some self)).cells) =
      .error e) :
    getValidCellsRelAux self isCheck white oldCell (done ++ target :: rest)
        acc s = (.error e, setCellRel self s target (some self)) := by
  induction done generalizing acc with
  | nil => simp [getValidCellsRelAux, getCell, herr]
  | cons u us ih =>
    obtain ⟨v, hv⟩ := hok u (List.mem_cons_self _ _)
    have hus : ∀ u2 ∈ us, ∃ v2,
        isCheck white ((setCellRel self s u2 (some self)).cells) = .ok v2 :=
      fun u2 hu2 => hok u2 (List.mem_cons_of_mem _ hu2)
    have hres := simulate_restore_rel self s u oldCell hold hcons huniq
    simp only [List.cons_append, getValidCellsRelAux, hv]
    rw [hres]
    exact ih _ hus

/-- C10, counterexample — under the spec's reading of `set_cell` as the
relocation primitive, the mover's `cell` attribute does not always equal
its pre-call value: with the mover at `(0, 0)`, one candidate `(1, 0)`
and a check predicate that raises, the attribute after the call is the
failing target `(1, 0)`, not the pre-call `(0, 0)`. -/
theorem piece_cell_attribute_reassigned :
    ((getValidCellsRel () (fun _ _ => .error .boardFailure) true
        [((1 : Int), (0 : Int))]
        (⟨fun c => if c = ((0 : Int), (0 : Int)) then some () else none,
          ((0 : Int), (0 : Int))⟩ : PieceState Unit)).2).pieceCell =
      ((1 : Int), (0 : Int))
    ∧ (⟨fun c => if c = ((0 : Int), (0 : Int)) then some () else none,
          ((0 : Int), (0 : Int))⟩ : PieceState Unit).pieceCell =
      ((0 : Int), (0 : Int))
    ∧ (((1 : Int), (0 : Int)) : Cell) ≠ ((0 : Int), (0 : Int)) :=
  ⟨rfl, rfl, by decide⟩

/-- C10, amended — the relocation primitive does reassign the mover's
`cell` attribute: placing the mover on a cell sets the attribute to that
cell; during `get_valid_cells` the attribute is therefore temporarily
reassigned to each simulated target, and the restore step reassigns it
back, so after a normally completing call (mover sitting exactly on its
recorded cell, check queries succeeding) the attribute equals its
pre-call value; when a check query fails, the attribute is left at the
failing target. -/
theorem piece_cell_relocation_behaviour :
    (∀ (P : Type) [DecidableEq P] (self : P) (s : PieceState P)
        (cell : Cell),
        (setCellRel self s cell (some self)).pieceCell = cell)
    ∧ (∀ (P : Type) [DecidableEq P] (self : P)
        (isCheck : Bool → (Cell → Option P) → Except PyError Bool)
        (white : Bool) (reachable : List Cell) (s : PieceState P),
        s.cells s.pieceCell = some self →
        (∀ c, s.cells c = some self → c = s.pieceCell) →
        (∀ cs : Cell → Option P, ∃ v, isCheck white cs = .ok v) →
        ((getValidCellsRel self isCheck white reachable s).2).pieceCell =
          s.pieceCell)
    ∧ (∀ (P : Type) [DecidableEq P] (self : P)
        (isCheck : Bool → (Cell → Option P) → Except PyError Bool)
        (white : Bool) (done rest : List Cell) (target : Cell) (e : PyError)
        (s : PieceState P),
        s.cells s.pieceCell = some self →
        (∀ c, s.cells c = some self → c = s.pieceCell) →
        (∀ u ∈ done, ∃ v,
          isCheck white ((setCellRel self s u (some self)).cells) = .ok v) →
        isCheck white ((setCellRel self s target (some self)).cells) =
          .error e →
        ((getValidCellsRel self isCheck white (done ++ target :: rest) s).2
          ).pieceCell = target) := by
  refine ⟨fun P _ self s cell => by simp [setCellRel], ?_, ?_⟩
  · intro P _ self isCheck white reachable s hcons huniq hck
    rw [getValidCellsRel, getValidCellsRelAux_state self isCheck white
      s.pieceCell reachable [] s rfl hcons huniq (fun t _ => hck _)]
  · intro P _ self isCheck white done rest target e s hcons huniq hok herr
    rw [getValidCellsRel, getValidCellsRelAux_error self isCheck white
      s.pieceCell done rest target e [] s rfl hcons huniq hok herr]
    simp [setCellRel]

/-- Closed instance of `piece_cell_relocation_behaviour`: the
normal-completion part restores the attribute on a one-piece board, and
the error part leaves it at the failing target. -/
theorem piece_cell_relocation_behaviour_witness :
    ((⟨fun c => if c = ((0 : Int), (0 : Int)) then some () else none,
        ((0 : Int), (0 : Int))⟩ : PieceState Unit).cells
        ((0 : Int), (0 : Int)) = some ())
    ∧ ((getValidCellsRel () (fun _ _ => .ok false) true
        [((1 : Int), (0 : Int))]
        (⟨fun c => if c = ((0 : Int), (0 : Int)) then some () else none,
          ((0 : Int), (0 : Int))⟩ : PieceState Unit)).2).pieceCell =
      (⟨fun c => if c = ((0 : Int), (0 : Int)) then some () else none,
        ((0 : Int), (0 : Int))⟩ : PieceState Unit).pieceCell
    ∧ ((getValidCellsRel () (fun _ _ => .error .boardFailure) true
        ([] ++ ((1 : Int), (0 : Int)) :: [])
        (⟨fun c => if c = ((0 : Int), (0 : Int)) then some () else none,
          ((0 : Int), (0 : Int))⟩ : PieceState Unit)).2).pieceCell =
      ((1 : Int), (0 : Int)) :=
  ⟨rfl,
    piece_cell_relocation_behaviour.2.1 Unit () (fun _ _ => .ok false) true
      [((1 : Int), (0 : Int))] _ rfl
      (fun c hc => by
        dsimp only at hc
        by_cases h : c = ((0 : Int), (0 : Int))
        · exact h
        · rw [if_neg h] at hc
          exact Option.noConfusion hc)
      (fun _ => ⟨false, rfl⟩),
    piece_cell_relocation_behaviour.2.2 Unit ()
      (fun _ _ => .error .boardFailure) true [] []
      ((1 : Int), (0 : Int)) .boardFailure _ rfl
      (fun c hc => by
        dsimp only at hc
        by_cases h : c = ((0 : Int), (0 : Int))
        · exact h
        · rw [if_neg h] at hc
          exact Option.noConfusion hc)
      (fun u hu => absurd hu (List.not_mem_nil u)) rfl⟩

end Pieces
